import Mathlib

/-!
Verification development for the bevy_hanabi multi-group GPU particle effect
system, as configured by `examples/box.rs`.

The repository source available here is the example configuration
(`examples/box.rs`); the library internals (expression module, modifier
pipeline, group/clone semantics, spawner) are described by the specification.
Definitions below marked `Modelled from the spec:` embed those missing parts
faithfully from the specification's words; the example's concrete
configuration (capacities, rates, literals, modifier bindings) is embedded
from `examples/box.rs` itself.

Machine floating point values are modelled as rationals (ℚ); the properties
at stake (counts, lifecycle ordering, capacity bounds) do not depend on
rounding.
-/

namespace Hanabi

/-- A 2-component vector value. -/
structure Vec2 where
  x : ℚ
  y : ℚ
deriving DecidableEq, Repr

/-- A 3-component vector value. -/
structure Vec3 where
  x : ℚ
  y : ℚ
  z : ℚ
deriving DecidableEq, Repr

/-- A 4-component vector value. -/
structure Vec4 where
  x : ℚ
  y : ℚ
  z : ℚ
  w : ℚ
deriving DecidableEq, Repr

/-- Modelled from the spec: the fixed builtin set of per-particle attributes
(Attribute Registry, spec section 4.1). -/
inductive Attribute where
  | AGE
  | LIFETIME
  | POSITION
  | VELOCITY
  | COLOR
  | SIZE
deriving DecidableEq, Repr

/-- Modelled from the spec: a runtime value, scalar or vector. -/
inductive Value where
  | scalar (v : ℚ)
  | vec2 (v : Vec2)
  | vec3 (v : Vec3)
  | vec4 (v : Vec4)
deriving DecidableEq, Repr

/-- Modelled from the spec: a per-particle record with storage for every
builtin attribute (spec section 3, Attribute and Particle Group invariants). -/
structure Particle where
  age : ℚ
  lifetime : ℚ
  position : Vec3
  velocity : Vec3
  color : Vec4
  size : Vec2
deriving DecidableEq, Repr

/-- The all-zero default particle state before init modifiers run. -/
def Particle.default : Particle :=
  ⟨0, 0, ⟨0, 0, 0⟩, ⟨0, 0, 0⟩, ⟨0, 0, 0, 0⟩, ⟨0, 0⟩⟩

/-- Read a particle's attribute state (spec: expressions are pure functions of
a particle's current attribute state). -/
def Particle.read (p : Particle) : Attribute → Value
  | .AGE => .scalar p.age
  | .LIFETIME => .scalar p.lifetime
  | .POSITION => .vec3 p.position
  | .VELOCITY => .vec3 p.velocity
  | .COLOR => .vec4 p.color
  | .SIZE => .vec2 p.size

/-- Write one attribute of a particle. A value of the wrong shape for the
attribute leaves the particle unchanged (shape errors are build-time concerns
in the spec, not runtime ones). -/
def Particle.write (p : Particle) : Attribute → Value → Particle
  | .AGE, .scalar v => { p with age := v }
  | .LIFETIME, .scalar v => { p with lifetime := v }
  | .POSITION, .vec3 v => { p with position := v }
  | .VELOCITY, .vec3 v => { p with velocity := v }
  | .COLOR, .vec4 v => { p with color := v }
  | .SIZE, .vec2 v => { p with size := v }
  | _, _ => p

/-- Modelled from the spec: binary operators of the expression DAG. -/
inductive BinOp where
  | add
  | sub
  | mul
deriving DecidableEq, Repr

/-- Modelled from the spec: one immutable node of the expression DAG
(spec section 3, Expression): literal, attribute read, or binary operator
whose operands are indices of earlier nodes. -/
inductive ExprNode where
  | lit (v : Value)
  | attr (a : Attribute)
  | binop (op : BinOp) (lhs rhs : Nat)
deriving DecidableEq, Repr

/-- Modelled from the spec: a frozen Expression Module is a topologically
ordered instruction list; an ExprId is an index into it. -/
abbrev Module := List ExprNode

/-- Apply a binary operator to two values component-wise; a shape mismatch
returns the left operand (shape errors are build-time concerns). -/
def vbin : BinOp → Value → Value → Value
  | .add, .scalar a, .scalar b => .scalar (a + b)
  | .sub, .scalar a, .scalar b => .scalar (a - b)
  | .mul, .scalar a, .scalar b => .scalar (a * b)
  | .add, .vec3 a, .vec3 b => .vec3 ⟨a.x + b.x, a.y + b.y, a.z + b.z⟩
  | .sub, .vec3 a, .vec3 b => .vec3 ⟨a.x - b.x, a.y - b.y, a.z - b.z⟩
  | _, v, _ => v

/-- Fuelled evaluator for expression nodes: operands reference earlier nodes,
so fuel `m.length + 1` always suffices for a well-formed module. -/
def evalF (m : Module) (s : Attribute → Value) : Nat → Nat → Option Value
  | 0, _ => none
  | fuel + 1, i =>
    match m.get? i with
    | some (.lit v) => some v
    | some (.attr a) => some (s a)
    | some (.binop op l r) =>
      match evalF m s fuel l, evalF m s fuel r with
      | some vl, some vr => some (vbin op vl vr)
      | _, _ => none
    | none => none

/-- Evaluate expression `i` of module `m` against attribute state `s`. -/
def Module.eval (m : Module) (i : Nat) (s : Attribute → Value) : Option Value :=
  evalF m s (m.length + 1) i

/-- Big-step evaluation relation for expressions of a module against a fixed
attribute state, used to state determinism of expression evaluation. -/
inductive EvalR (m : Module) (s : Attribute → Value) : Nat → Value → Prop where
  | lit {i : Nat} {v : Value} : m.get? i = some (.lit v) → EvalR m s i v
  | attr {i : Nat} {a : Attribute} : m.get? i = some (.attr a) → EvalR m s i (s a)
  | binop {i l r : Nat} {op : BinOp} {vl vr : Value} :
      m.get? i = some (.binop op l r) →
      EvalR m s l vl → EvalR m s r vr → EvalR m s i (vbin op vl vr)

/-- Modelled from the spec: init-stage modifiers bound to group 0 in the
example — `SetAttributeModifier` evaluates an expression and writes one
attribute; `SetPositionBoxModifier` places the particle inside a box given by
center/width/height expressions (the random placement inside the box is
abstracted to the box center; no claim depends on the placement). -/
inductive InitModifier where
  | setAttribute (a : Attribute) (e : Nat)
  | setPositionBox (center width height : Nat)
deriving DecidableEq, Repr

/-- Modelled from the spec: update-stage modifiers — attribute writes,
constant acceleration, and the clone-fraction-to-group rule
(spec sections 4.3 and 4.4). -/
inductive UpdateModifier where
  | setAttribute (a : Attribute) (e : Nat)
  | accel (e : Nat)
  | clone (fraction : ℚ) (target : Nat)
deriving DecidableEq, Repr

/-- A CPU-provided parameter value: a single value or a uniform range. -/
inductive CpuValue (α : Type) where
  | single (v : α)
  | uniform (lo hi : α)
deriving DecidableEq, Repr

/-- Modelled from the spec: render-stage modifiers — color over normalized
lifetime from a gradient (time-key/value pairs), and size. Render modifiers
compute visual attributes only; no claim depends on their output values, but
they are part of the immutable descriptor. -/
inductive RenderModifier where
  | colorOverLifetime (gradient : List (ℚ × Vec4))
  | setSize (size : CpuValue Vec2)
deriving DecidableEq, Repr

/-- Modelled from the spec: the crossing test of the clone rule — the
particle's normalized age crosses the configured fraction during this tick,
i.e. age was below `fraction × lifetime` before aging and is at or above it
after (spec section 4.4: "age ≥ 0.8 × lifetime"). -/
def crossesB (prevAge newAge lifetime fraction : ℚ) : Bool :=
  decide (prevAge < fraction * lifetime) && decide (fraction * lifetime ≤ newAge)

/-- Advance a particle's age by `dt` (built-in aging of the update stage). -/
def aged (dt : ℚ) (p : Particle) : Particle :=
  { p with age := p.age + dt }

/-- Modelled from the spec: apply one update-stage modifier to one particle,
returning the new particle state and the clone requests (target group,
copied attribute state) it produced. `prevAge` is the particle's age before
this tick's aging, used by the crossing test. The clone rule copies the
particle's current attribute state and never modifies the source particle. -/
def applyMod (m : Module) (dt prevAge : ℚ) (md : UpdateModifier) (p : Particle) :
    Particle × List (Nat × Particle) :=
  match md with
  | .setAttribute a e =>
    (match m.eval e p.read with
     | some v => p.write a v
     | none => p, [])
  | .accel e =>
    (match m.eval e p.read with
     | some (.vec3 v) =>
       { p with velocity := ⟨p.velocity.x + dt * v.x, p.velocity.y + dt * v.y,
                             p.velocity.z + dt * v.z⟩ }
     | _ => p, [])
  | .clone f tgt =>
    (p, if crossesB prevAge p.age p.lifetime f then [(tgt, p)] else [])

/-- Run a group's update modifier list in registration order on one particle,
collecting clone requests (spec section 4.3: each stage executes its modifier
list in registration order). -/
def runMods (m : Module) (dt prevAge : ℚ) : List UpdateModifier → Particle →
    Particle × List (Nat × Particle)
  | [], p => (p, [])
  | md :: mds, p =>
    let r1 := applyMod m dt prevAge md p
    let r2 := runMods m dt prevAge mds r1.1
    (r2.1, r1.2 ++ r2.2)

/-- One update-stage tick for one particle: built-in aging by `dt`, then the
group's modifiers in order. -/
def updateParticle (m : Module) (mods : List UpdateModifier) (dt : ℚ)
    (p : Particle) : Particle × List (Nat × Particle) :=
  runMods m dt p.age mods (aged dt p)

/-- One update-stage tick for a whole group: every live particle is processed
exactly once; clone requests are collected in particle order. -/
def updateGroup (m : Module) (mods : List UpdateModifier) (dt : ℚ)
    (ps : List Particle) : List Particle × List (Nat × Particle) :=
  (ps.map fun p => (updateParticle m mods dt p).1,
   (ps.map fun p => (updateParticle m mods dt p).2).flatten)

/-- Modelled from the spec: the expiry check — a particle is removed from its
group's live set iff `age ≥ lifetime` (spec section 4.4). -/
def expiryFilter (ps : List Particle) : List Particle :=
  ps.filter fun p => decide (p.age < p.lifetime)

/-- Modelled from the spec: a capacity-limited insertion attempt — if the
group's live count is below capacity the particle is appended, otherwise the
attempt is a no-op and the particle is dropped (spec sections 4.4, 4.5:
capacity is a hard upper bound; excess spawns/clones are dropped, never
queued, never evicting existing particles). Used by both the spawner and the
clone rule. -/
def cloneInsert (cap : Nat) (ps : List Particle) (p : Particle) : List Particle :=
  if ps.length < cap then ps ++ [p] else ps

/-- Apply one init-stage modifier to a particle. -/
def applyInit (m : Module) (md : InitModifier) (p : Particle) : Particle :=
  match md with
  | .setAttribute a e =>
    match m.eval e p.read with
    | some v => p.write a v
    | none => p
  | .setPositionBox c _ _ =>
    match m.eval c p.read with
    | some (.vec3 v) => { p with position := v }
    | _ => p

/-- A newly spawned particle: the init modifier list applied in order to the
default particle state. -/
def spawnParticle (m : Module) (initMods : List InitModifier) : Particle :=
  initMods.foldl (fun p md => applyInit m md p) Particle.default

/-- Modelled from the spec: the immutable Effect Descriptor — group
capacities, spawner rate, frozen expression module, per-group modifier
bindings (init for group 0 spawns; update and render lists indexed by group),
and a display name (spec section 3, Effect Descriptor). -/
structure EffectDesc where
  capacities : List Nat
  rate : ℚ
  module : Module
  initMods : List InitModifier
  updateMods : List (List UpdateModifier)
  renderMods : List (List RenderModifier)
  name : String
deriving DecidableEq, Repr

/-- Modelled from the spec: the build-time validation error taxonomy
(spec section 7). -/
inductive BuildError where
  | UnknownAttribute
  | ForeignExpression
  | InvalidGroupReference
  | CapacityMismatch
deriving DecidableEq, Repr

/-- `true` iff some clone modifier's target group index is out of range. -/
def hasInvalidGroupRef (caps : List Nat) (updateMods : List (List UpdateModifier)) : Bool :=
  updateMods.any fun l => l.any fun md =>
    match md with
    | .clone _ g => decide (caps.length ≤ g)
    | _ => false

/-- `true` iff some clone modifier targets an in-range group of capacity 0. -/
def hasCapacityMismatch (caps : List Nat) (updateMods : List (List UpdateModifier)) : Bool :=
  updateMods.any fun l => l.any fun md =>
    match md with
    | .clone _ g => decide (caps.getD g 1 = 0)
    | _ => false

/-- Modelled from the spec: descriptor build (`EffectAsset::new` plus the
builder chain) — a validating aggregation that fails with
`InvalidGroupReference` if any modifier's target group index is out of range,
or `CapacityMismatch` if a clone modifier targets a zero-capacity group, and
otherwise returns the immutable descriptor (spec section 4.6). -/
def buildEffect (caps : List Nat) (rate : ℚ) (m : Module)
    (initMods : List InitModifier) (updateMods : List (List UpdateModifier))
    (renderMods : List (List RenderModifier)) (name : String) :
    Except BuildError EffectDesc :=
  if hasInvalidGroupRef caps updateMods then .error .InvalidGroupReference
  else if hasCapacityMismatch caps updateMods then .error .CapacityMismatch
  else .ok ⟨caps, rate, m, initMods, updateMods, renderMods, name⟩

/-- Runtime state of one effect instance's simulation: the per-group live
particle lists and the spawner's fractional accumulator. -/
structure EffectState where
  groups : List (List Particle)
  acc : ℚ
deriving DecidableEq, Repr

/-- Replace group `i` by `f` applied to it; out-of-range indices are
unchanged. -/
def modifyGroup : List (List Particle) → Nat → (List Particle → List Particle) →
    List (List Particle)
  | [], _, _ => []
  | g :: gs, 0, f => f g :: gs
  | g :: gs, i + 1, f => g :: modifyGroup gs i f

/-- Insert `n` copies of a freshly spawned particle into a group, each via a
capacity-limited attempt. -/
def spawnInto (cap : Nat) (p : Particle) (g : List Particle) : Nat → List Particle
  | 0 => g
  | n + 1 => spawnInto cap p (cloneInsert cap g p) n

/-- Run the update stage on every group with its own modifier list (groups
beyond the bound modifier lists have no modifiers). -/
def updateGroups (m : Module) (dt : ℚ) : List (List Particle) →
    List (List UpdateModifier) → List (List Particle × List (Nat × Particle))
  | [], _ => []
  | g :: gs, [] => updateGroup m [] dt g :: updateGroups m dt gs []
  | g :: gs, ml :: mls => updateGroup m ml dt g :: updateGroups m dt gs mls

/-- Insert the tick's collected clone requests into the target groups, each
via a capacity-limited attempt (clones enter the target's live set after all
groups' update and expiry, so they are first processed next tick —
spec section 5). -/
def insertClones (caps : List Nat) : List (List Particle) → List (Nat × Particle) →
    List (List Particle)
  | gs, [] => gs
  | gs, (tgt, p) :: rest =>
    insertClones caps
      (modifyGroup gs tgt fun g => cloneInsert (caps.getD tgt 0) g p) rest

/-- Modelled from the spec: one simulation tick (spec section 2 control flow,
sections 4.4 and 4.5): the spawner accumulates `rate × dt`, emits
`⌊accumulator⌋` particles to group 0 (capacity-limited) and retains the
fractional remainder; init runs on the newly spawned particles; the update
stage runs per group (aging, modifiers, clone requests); the expiry check
removes particles with `age ≥ lifetime`; finally the clone requests are
inserted into their target groups, capacity-limited. -/
def tick (d : EffectDesc) (dt : ℚ) (st : EffectState) : EffectState :=
  let x := st.acc + d.rate * dt
  let n := (⌊x⌋).toNat
  let acc2 := x - (⌊x⌋ : ℚ)
  let fresh := spawnParticle d.module d.initMods
  let gs1 := modifyGroup st.groups 0 fun g => spawnInto (d.capacities.getD 0 0) fresh g n
  let results := updateGroups d.module dt gs1 d.updateMods
  let survivors := results.map fun r => expiryFilter r.1
  let reqs := (results.map Prod.snd).flatten
  ⟨insertClones d.capacities survivors reqs, acc2⟩

/-- The initial simulation state of an effect instance: every group empty,
spawner accumulator zero. -/
def initState (d : EffectDesc) : EffectState :=
  ⟨d.capacities.map fun _ => [], 0⟩

/-- The simulation states reachable from the initial state by ticks with
non-negative timesteps. -/
inductive Reachable (d : EffectDesc) : EffectState → Prop where
  | init : Reachable d (initState d)
  | step {st : EffectState} {dt : ℚ} : Reachable d st → 0 ≤ dt →
      Reachable d (tick d dt st)

/-- Modelled from the spec: the spawner's per-tick step — accumulate
`rate × dt`, emit `⌊accumulator⌋` particles, retain the fractional remainder
(spec section 4.5). Returns (emitted count, new accumulator). -/
def spawnStep (rate acc dt : ℚ) : Nat × ℚ :=
  let x := acc + rate * dt
  ((⌊x⌋).toNat, x - (⌊x⌋ : ℚ))

/-- Run the spawner over a sequence of timesteps, totalling the emissions. -/
def spawnRun (rate : ℚ) : ℚ → List ℚ → Nat × ℚ
  | acc, [] => (0, acc)
  | acc, dt :: dts =>
    let s := spawnStep rate acc dt
    let r := spawnRun rate s.2 dts
    (s.1 + r.1, r.2)

/-- Modelled from the spec: the expression writer used during authoring
(`ExprWriter::new`); operations append nodes and hand out the node's index
as its ExprId (spec section 4.2). -/
structure ExprWriter where
  nodes : List ExprNode
deriving DecidableEq, Repr

/-- A fresh, empty expression writer. -/
def ExprWriter.new : ExprWriter := ⟨[]⟩

/-- `writer.lit(v)`: append a literal node, returning its ExprId. -/
def ExprWriter.lit (w : ExprWriter) (v : Value) : Nat × ExprWriter :=
  (w.nodes.length, ⟨w.nodes ++ [.lit v]⟩)

/-- `writer.finish()`: hand over the instruction list as the module
(spec section 4.2). -/
def ExprWriter.finish (w : ExprWriter) : Module := w.nodes

/-- Modelled from the spec: `Module::lit` — the example (`box.rs` line 117)
calls `module.lit(...)` on the mutable module returned by `finish()` to add
one more literal expression, obtaining its ExprId; the module is extended by
appending, exactly like the writer's own `lit`. -/
def Module.lit (m : Module) (v : Value) : Nat × Module :=
  (m.length, m ++ [.lit v])

/-- Modelled from the spec: an effect instance — a reference to a shared
descriptor plus instance-local overrides such as the optional 2D layer
(spec section 3, Effect Instance; `ParticleEffect::new` in `box.rs`). -/
structure ParticleEffect where
  handle : EffectDesc
  z_layer_2d : Option ℚ
deriving DecidableEq, Repr

/-- `ParticleEffect::new`: bind a descriptor with no overrides set. -/
def ParticleEffect.new (d : EffectDesc) : ParticleEffect := ⟨d, none⟩

/-- `with_z_layer_2d`: set the instance-local 2D layer override. -/
def ParticleEffect.with_z_layer_2d (pe : ParticleEffect) (z : Option ℚ) :
    ParticleEffect :=
  { pe with z_layer_2d := z }

/-- The expression module authored by `examples/box.rs`: the eight writer
literals in issue order (age 0, lifetime 0.8, box center, box width 1.8, box
height 0.1, rain velocity, splash velocity zero, splash lifetime 0.2),
followed by the acceleration literal added by `module.lit` after
`writer.finish()`. -/
def boxModule : Module :=
  [.lit (.scalar 0),
   .lit (.scalar (4/5)),
   .lit (.vec3 ⟨0, 1/2, 0⟩),
   .lit (.scalar (9/5)),
   .lit (.scalar (1/10)),
   .lit (.vec3 ⟨0, -(1/2), 0⟩),
   .lit (.vec3 ⟨0, 0, 0⟩),
   .lit (.scalar (1/5)),
   .lit (.vec3 ⟨0, -1, 0⟩)]

/-- The color gradient of `examples/box.rs` (both groups use the same keys). -/
def boxGradient : List (ℚ × Vec4) :=
  [(0, ⟨1, 1, 1, 0⟩), (1/10, ⟨1, 1, 1, 1/2⟩), (9/10, ⟨1, 1, 1, 1/2⟩),
   (1, ⟨1, 1, 1, 0⟩)]

/-- The effect descriptor authored by `examples/box.rs`: two groups of
capacity 4096, a 50/s rate spawner, the module above, the four init modifiers
(position box, velocity, age 0, lifetime 0.8), group 0's update modifiers
(clone at fraction 0.8 into group 1, then constant acceleration) and
group 1's (velocity := 0, lifetime := 0.2), and the per-group render
modifiers. -/
def boxDesc : EffectDesc :=
  { capacities := [4096, 4096]
    rate := 50
    module := boxModule
    initMods := [.setPositionBox 2 3 4, .setAttribute .VELOCITY 5,
                 .setAttribute .AGE 0, .setAttribute .LIFETIME 1]
    updateMods := [[.clone (4/5) 1, .accel 8],
                   [.setAttribute .VELOCITY 6, .setAttribute .LIFETIME 7]]
    renderMods := [[.colorOverLifetime boxGradient,
                    .setSize (.uniform ⟨1/400, 1/50⟩ ⟨1/400, 1/20⟩)],
                   [.colorOverLifetime boxGradient,
                    .setSize (.single ⟨1/400, 1/400⟩)]]
    name := "2d" }

/-- A sample live particle of group 0 shortly before the clone threshold:
age 0.6, lifetime 0.8 (as initialized by `examples/box.rs`). -/
def sampleSource : Particle :=
  { Particle.default with age := 3/5, lifetime := 4/5 }

/-- The capacity bound: every group's live particle count is at most its
configured capacity (out-of-range indices read as an empty group against a
zero capacity). -/
def CapBound (caps : List Nat) (gs : List (List Particle)) : Prop :=
  ∀ i, (gs.getD i []).length ≤ caps.getD i 0

end Hanabi

namespace Hanabi

/-- Claim C8: expression evaluation is deterministic — for every expression of
a frozen Expression Module, any two evaluations against identical input
attribute state yield identical output. -/
theorem expr_eval_deterministic (m : Module) (s : Attribute → Value) (i : Nat)
    (v1 v2 : Value) (h1 : EvalR m s i v1) (h2 : EvalR m s i v2) : v1 = v2 := by
  induction h1 generalizing v2 with
  | lit h =>
    cases h2 with
    | lit h2 =>
      rw [h] at h2
      simp only [Option.some.injEq, ExprNode.lit.injEq] at h2
      exact h2
    | attr h2 => rw [h] at h2; simp at h2
    | binop h2 _ _ => rw [h] at h2; simp at h2
  | attr h =>
    cases h2 with
    | lit h2 => rw [h] at h2; simp at h2
    | attr h2 =>
      rw [h] at h2
      simp only [Option.some.injEq, ExprNode.attr.injEq] at h2
      rw [h2]
    | binop h2 _ _ => rw [h] at h2; simp at h2
  | binop h _ _ ihl ihr =>
    cases h2 with
    | lit h2 => rw [h] at h2; simp at h2
    | attr h2 => rw [h] at h2; simp at h2
    | binop h2 hl2 hr2 =>
      rw [h] at h2
      simp only [Option.some.injEq, ExprNode.binop.injEq] at h2
      obtain ⟨hop, hl, hr⟩ := h2
      subst hop; subst hl; subst hr
      rw [ihl _ hl2, ihr _ hr2]

theorem expr_eval_deterministic_witness :
    EvalR boxModule sampleSource.read 0 (Value.scalar 0) ∧
    (Value.scalar 0 : Value) = Value.scalar 0 :=
  ⟨EvalR.lit rfl,
   expr_eval_deterministic boxModule sampleSource.read 0 _ _
     (EvalR.lit rfl) (EvalR.lit rfl)⟩

/-- Claim C9: setting the instance-local `z_layer_2d` override leaves the
shared Effect Descriptor completely unchanged — its capacities, spawner rate,
expression module and all modifier lists are identical before and after — and
only the instance-local override field changes. -/
theorem instance_override_preserves_descriptor (pe : ParticleEffect) (z : Option ℚ) :
    (pe.with_z_layer_2d z).handle = pe.handle ∧
    (pe.with_z_layer_2d z).handle.capacities = pe.handle.capacities ∧
    (pe.with_z_layer_2d z).handle.rate = pe.handle.rate ∧
    (pe.with_z_layer_2d z).handle.module = pe.handle.module ∧
    (pe.with_z_layer_2d z).handle.initMods = pe.handle.initMods ∧
    (pe.with_z_layer_2d z).handle.updateMods = pe.handle.updateMods ∧
    (pe.with_z_layer_2d z).handle.renderMods = pe.handle.renderMods ∧
    (pe.with_z_layer_2d z).z_layer_2d = z :=
  ⟨rfl, rfl, rfl, rfl, rfl, rfl, rfl, rfl⟩

/-- Claim C5, counterexample: the module is mutated after `finish()` — the
example (`box.rs` line 117) calls `module.lit(...)` on the module returned by
`writer.finish()`, which appends a node, so the frozen module is not "never
mutated again": at the concrete input below, the instruction list after
`Module.lit` differs from the one `finish()` returned. -/
theorem module_mutated_after_finish :
    (Module.lit (ExprWriter.finish ExprWriter.new) (Value.scalar 1)).2 ≠
      ExprWriter.finish ExprWriter.new := by
  decide

/-- Claim C5, amended: after `finish()` the only change to the module is
appending new expressions (`Module.lit`); existing instructions are never
altered, so every ExprId issued before `finish()` remains a valid,
referentially stable index into the instruction list afterward: a freshly
issued id points at its own node, and any id valid before an append is still
valid and resolves to the same node after it. -/
theorem exprIds_stable_after_finish (w : ExprWriter) (v : Value) (i : Nat)
    (h : i < w.nodes.length) :
    ((w.lit v).2.nodes = w.nodes ++ [ExprNode.lit v]) ∧
    ((w.lit v).2.nodes.get? (w.lit v).1 = some (ExprNode.lit v)) ∧
    i < (Module.lit w.finish v).2.length ∧
    (Module.lit w.finish v).2.get? i = w.finish.get? i := by
  refine ⟨rfl, ?_, ?_, ?_⟩
  · simp [ExprWriter.lit]
  · simp [Module.lit, ExprWriter.finish]
    omega
  · simp only [Module.lit, ExprWriter.finish, List.get?_eq_getElem?]
    rw [List.getElem?_append_left h]

theorem exprIds_stable_after_finish_witness :
    0 < (ExprWriter.mk [ExprNode.lit (Value.scalar 0)]).nodes.length ∧
    (Module.lit (ExprWriter.finish ⟨[ExprNode.lit (Value.scalar 0)]⟩)
        (Value.scalar 1)).2.get? 0 =
      (ExprWriter.finish ⟨[ExprNode.lit (Value.scalar 0)]⟩).get? 0 :=
  ⟨by decide,
   (exprIds_stable_after_finish ⟨[ExprNode.lit (Value.scalar 0)]⟩
     (Value.scalar 1) 0 (by decide)).2.2.2⟩

/-- Claim C6: building an effect descriptor containing a clone modifier whose
target group index is out of range fails with `InvalidGroupReference` at
build time, and does not produce a usable descriptor — the build returns the
error and never an `ok` descriptor. -/
theorem build_rejects_invalid_group_reference (caps : List Nat) (rate : ℚ)
    (m : Module) (im : List InitModifier) (um : List (List UpdateModifier))
    (rm : List (List RenderModifier)) (nm : String)
    (h : ∃ l ∈ um, ∃ f g, UpdateModifier.clone f g ∈ l ∧ caps.length ≤ g) :
    buildEffect caps rate m im um rm nm = .error .InvalidGroupReference ∧
    ∀ d : EffectDesc, buildEffect caps rate m im um rm nm ≠ .ok d := by
  have hb : hasInvalidGroupRef caps um = true := by
    obtain ⟨l, hl, f, g, hmem, hg⟩ := h
    simp only [hasInvalidGroupRef, List.any_eq_true]
    exact ⟨l, hl, UpdateModifier.clone f g, hmem, by simp [hg]⟩
  constructor
  · simp [buildEffect, hb]
  · intro d
    simp [buildEffect, hb]

theorem build_rejects_invalid_group_reference_witness :
    (∃ l ∈ [[UpdateModifier.clone (4/5) 2]], ∃ f g,
        UpdateModifier.clone f g ∈ l ∧ ([4096, 4096] : List Nat).length ≤ g) ∧
    buildEffect [4096, 4096] 50 boxModule boxDesc.initMods
        [[UpdateModifier.clone (4/5) 2]] [] "2d" =
      .error .InvalidGroupReference :=
  ⟨⟨[UpdateModifier.clone (4/5) 2], by simp, 4/5, 2, by simp, by simp⟩,
   (build_rejects_invalid_group_reference [4096, 4096] 50 boxModule
     boxDesc.initMods [[UpdateModifier.clone (4/5) 2]] [] "2d"
     ⟨[UpdateModifier.clone (4/5) 2], by simp, 4/5, 2, by simp, by simp⟩).1⟩

lemma updateParticle_clone_snd (m : Module) (f : ℚ) (g : Nat) (dt : ℚ)
    (p : Particle) :
    (updateParticle m [.clone f g] dt p).2 =
      if crossesB p.age (p.age + dt) p.lifetime f then [(g, aged dt p)] else [] := by
  simp [updateParticle, runMods, applyMod, aged]

lemma clone_requests_count (m : Module) (f : ℚ) (g : Nat) (dt : ℚ) :
    ∀ ps : List Particle,
      (updateGroup m [.clone f g] dt ps).2.length =
        (ps.filter fun q => crossesB q.age (q.age + dt) q.lifetime f).length
  | [] => rfl
  | q :: qs => by
    have ih := clone_requests_count m f g dt qs
    simp only [updateGroup, List.map_cons, List.flatten_cons, List.length_append,
      List.filter_cons] at ih ⊢
    rw [updateParticle_clone_snd]
    cases h : crossesB q.age (q.age + dt) q.lifetime f with
    | true =>
      simp [h, ih]
      omega
    | false => simp [h, ih]

/-- Claim C1: a live particle in a source group carrying a
`CloneModifier(fraction f, target group g)` makes exactly one clone attempt
into group `g` in any tick in which its normalized age crosses the threshold
(and none in a tick where it does not); a whole group produces exactly one
request per crossing particle per tick; and the attempt leaves the target
group's live count unchanged when it equals capacity, and increases it by
exactly one when it is below capacity. -/
theorem clone_one_attempt (m : Module) (f : ℚ) (g : Nat) (dt : ℚ) (p : Particle)
    (tgt : List Particle) (cap : Nat) :
    (crossesB p.age (p.age + dt) p.lifetime f = true →
      (updateParticle m [.clone f g] dt p).2 = [(g, aged dt p)]) ∧
    (crossesB p.age (p.age + dt) p.lifetime f = false →
      (updateParticle m [.clone f g] dt p).2 = []) ∧
    (∀ ps : List Particle,
      (updateGroup m [.clone f g] dt ps).2.length =
        (ps.filter fun q => crossesB q.age (q.age + dt) q.lifetime f).length) ∧
    (tgt.length = cap → (cloneInsert cap tgt (aged dt p)).length = cap) ∧
    (tgt.length < cap → (cloneInsert cap tgt (aged dt p)).length = tgt.length + 1) := by
  refine ⟨?_, ?_, clone_requests_count m f g dt, ?_, ?_⟩
  · intro h
    rw [updateParticle_clone_snd, h, if_pos rfl]
  · intro h
    rw [updateParticle_clone_snd, h]
    simp
  · intro h
    simp [cloneInsert, h]
  · intro h
    simp [cloneInsert, h]

theorem clone_one_attempt_witness :
    crossesB sampleSource.age (sampleSource.age + 1/10) sampleSource.lifetime
        (4/5) = true ∧
    (updateParticle [] [UpdateModifier.clone (4/5) 1] (1/10) sampleSource).2 =
      [(1, aged (1/10) sampleSource)] :=
  ⟨by norm_num [crossesB, sampleSource, Particle.default],
   (clone_one_attempt [] (4/5) 1 (1/10) sampleSource [] 1).1
     (by norm_num [crossesB, sampleSource, Particle.default])⟩

/-- Claim C7: cloning never removes or alters the source particle — the clone
rule leaves the particle it processes unchanged; a group whose update list is
a clone modifier maps each live particle to its aged self (one output per
input, no removal by cloning); and the source particles continue aging and
expire independently, a particle surviving the expiry check iff its age is
below its lifetime. -/
theorem clone_preserves_source (m : Module) (f prevAge : ℚ) (g : Nat) (dt : ℚ)
    (p : Particle) (ps : List Particle) :
    (applyMod m dt prevAge (.clone f g) p).1 = p ∧
    (updateGroup m [.clone f g] dt ps).1 = ps.map (aged dt) ∧
    (updateGroup m [.clone f g] dt ps).1.length = ps.length ∧
    (∀ q : Particle, q ∈ expiryFilter (ps.map (aged dt)) ↔
      q ∈ ps.map (aged dt) ∧ q.age < q.lifetime) := by
  have h1 : (updateGroup m [.clone f g] dt ps).1 = ps.map (aged dt) := by
    simp [updateGroup, updateParticle, runMods, applyMod]
  refine ⟨rfl, h1, by rw [h1, List.length_map], ?_⟩
  intro q
  simp [expiryFilter, List.mem_filter]

lemma write_age (p : Particle) (a : Attribute) (v : Value)
    (ha : a ≠ Attribute.AGE) : (p.write a v).age = p.age := by
  cases a
  case AGE => exact absurd rfl ha
  all_goals cases v <;> rfl

lemma applyMod_age (m : Module) (dt prevAge : ℚ) (md : UpdateModifier)
    (p : Particle) (h : ∀ e, md ≠ UpdateModifier.setAttribute Attribute.AGE e) :
    (applyMod m dt prevAge md p).1.age = p.age := by
  cases md with
  | setAttribute a e =>
    have ha : a ≠ Attribute.AGE := by
      intro hEq
      exact h e (by rw [hEq])
    rcases hv : m.eval e p.read with _ | v <;> simp [applyMod, hv]
    exact write_age p a v ha
  | accel e =>
    rcases hv : m.eval e p.read with _ | v
    · simp [applyMod, hv]
    · cases v <;> simp [applyMod, hv]
  | clone f g => rfl

lemma runMods_age (m : Module) (dt prevAge : ℚ) :
    ∀ (mods : List UpdateModifier) (p : Particle),
      (∀ md ∈ mods, ∀ e, md ≠ UpdateModifier.setAttribute Attribute.AGE e) →
      (runMods m dt prevAge mods p).1.age = p.age
  | [], _, _ => rfl
  | md :: mds, p, h => by
    have h1 := applyMod_age m dt prevAge md p (h md (List.mem_cons_self md mds))
    have h2 := runMods_age m dt prevAge mds (applyMod m dt prevAge md p).1
      (fun x hx => h x (List.mem_cons_of_mem md hx))
    simp only [runMods]
    rw [h2, h1]

/-- Claim C3: for a group whose update modifiers never write the AGE
attribute (true of every group configured in this repository), a particle's
AGE after the update tick equals its AGE before plus `dt`, hence AGE is
monotonically non-decreasing across ticks for `dt ≥ 0`; and the expiry check
removes a particle from the group's live set iff `age ≥ lifetime` (a particle
survives iff `age < lifetime`). -/
theorem age_monotonic_and_expiry (m : Module) (mods : List UpdateModifier)
    (dt : ℚ) (hdt : 0 ≤ dt)
    (hm : ∀ md ∈ mods, ∀ e, md ≠ UpdateModifier.setAttribute Attribute.AGE e) :
    (∀ p : Particle, (updateParticle m mods dt p).1.age = p.age + dt ∧
      p.age ≤ (updateParticle m mods dt p).1.age) ∧
    (∀ (ps : List Particle) (q : Particle),
      q ∈ expiryFilter ps ↔ q ∈ ps ∧ q.age < q.lifetime) := by
  constructor
  · intro p
    have h1 : (updateParticle m mods dt p).1.age = p.age + dt := by
      unfold updateParticle
      rw [runMods_age m dt p.age mods (aged dt p) hm]
      rfl
    refine ⟨h1, ?_⟩
    rw [h1]
    linarith
  · intro ps q
    simp [expiryFilter, List.mem_filter]

theorem age_monotonic_and_expiry_witness :
    (0 : ℚ) ≤ 1/60 ∧
    ((updateParticle [] [] (1/60) sampleSource).1.age = sampleSource.age + 1/60 ∧
     sampleSource.age ≤ (updateParticle [] [] (1/60) sampleSource).1.age) :=
  ⟨by norm_num,
   (age_monotonic_and_expiry [] [] (1/60) (by norm_num) (by simp)).1 sampleSource⟩

lemma spawnRun_sum (rate : ℚ) (hr : 0 ≤ rate) :
    ∀ (dts : List ℚ) (acc : ℚ), 0 ≤ acc → acc < 1 → (∀ d ∈ dts, 0 ≤ d) →
      ((spawnRun rate acc dts).1 : ℚ) + (spawnRun rate acc dts).2 =
          acc + rate * dts.sum ∧
        0 ≤ (spawnRun rate acc dts).2 ∧ (spawnRun rate acc dts).2 < 1
  | [], acc, h0, h1, _ => by
    refine ⟨?_, h0, h1⟩
    simp [spawnRun]
  | dt :: dts, acc, h0, h1, hd => by
    have hdt : 0 ≤ dt := hd dt (List.mem_cons_self _ _)
    have hx0 : 0 ≤ acc + rate * dt := by
      have := mul_nonneg hr hdt
      linarith
    have hfloor0 : 0 ≤ ⌊acc + rate * dt⌋ := Int.floor_nonneg.mpr hx0
    have hfl := Int.floor_le (acc + rate * dt)
    have hfu := Int.lt_floor_add_one (acc + rate * dt)
    have ih := spawnRun_sum rate hr dts (acc + rate * dt - (⌊acc + rate * dt⌋ : ℚ))
      (by linarith) (by linarith)
      (fun d hdm => hd d (List.mem_cons_of_mem _ hdm))
    simp only [spawnRun, spawnStep, List.sum_cons] at ih ⊢
    obtain ⟨hsum, hlo, hhi⟩ := ih
    refine ⟨?_, hlo, hhi⟩
    have hcast : ((⌊acc + rate * dt⌋.toNat : ℕ) : ℚ) =
        ((⌊acc + rate * dt⌋ : ℤ) : ℚ) := by
      rw [← Int.cast_natCast, Int.toNat_of_nonneg hfloor0]
    push_cast
    rw [hcast]
    linarith

/-- Claim C4: the rate-based spawner adds `rate × dt` to its accumulator each
tick, emits `⌊accumulator⌋` particles and retains the fractional remainder
(which is what the simulation tick uses for its group-0 spawn count); over
any sequence of non-negative timesteps the total emitted equals
`⌊rate × (sum of the timesteps)⌋` — a quantity depending only on the total
time, hence independent of how the time is chunked into individual steps. -/
theorem spawner_accumulator_floor (rate : ℚ) (dts : List ℚ) (hr : 0 ≤ rate)
    (hd : ∀ d ∈ dts, 0 ≤ d) :
    ((spawnRun rate 0 dts).1 : ℤ) = ⌊rate * dts.sum⌋ ∧
    (∀ acc dt : ℚ, spawnStep rate acc dt =
      ((⌊acc + rate * dt⌋).toNat, acc + rate * dt - (⌊acc + rate * dt⌋ : ℚ))) ∧
    (∀ (d : EffectDesc) (dt : ℚ) (st : EffectState),
      (tick d dt st).acc = (spawnStep d.rate st.acc dt).2) := by
  refine ⟨?_, fun acc dt => rfl, fun d dt st => rfl⟩
  obtain ⟨hsum, h0, h1⟩ := spawnRun_sum rate hr dts 0 le_rfl one_pos hd
  symm
  rw [Int.floor_eq_iff]
  constructor
  · push_cast
    linarith
  · push_cast
    linarith

theorem spawner_accumulator_floor_witness :
    (0 : ℚ) ≤ 50 ∧ (∀ d ∈ [(1 : ℚ)], 0 ≤ d) ∧
    ((spawnRun 50 0 [1]).1 : ℤ) = ⌊(50 : ℚ) * List.sum [1]⌋ :=
  ⟨by norm_num, by simp,
   (spawner_accumulator_floor 50 [1] (by norm_num) (by simp)).1⟩

lemma cloneInsert_le (cap : Nat) (g : List Particle) (p : Particle)
    (h : g.length ≤ cap) : (cloneInsert cap g p).length ≤ cap := by
  by_cases hlt : g.length < cap
  · simp only [cloneInsert, hlt, if_true, List.length_append, List.length_cons,
      List.length_nil]
    omega
  · simp only [cloneInsert, hlt, if_false]
    exact h

lemma spawnInto_le (cap : Nat) (p : Particle) :
    ∀ (n : Nat) (g : List Particle), g.length ≤ cap →
      (spawnInto cap p g n).length ≤ cap
  | 0, _, h => h
  | n + 1, g, h => spawnInto_le cap p n _ (cloneInsert_le cap g p h)

lemma getD_modifyGroup : ∀ (gs : List (List Particle)) (i j : Nat)
    (f : List Particle → List Particle),
    (modifyGroup gs i f).getD j [] = gs.getD j [] ∨
      (i = j ∧ (modifyGroup gs i f).getD j [] = f (gs.getD j []))
  | [], _, _, _ => Or.inl rfl
  | _ :: _, 0, 0, _ => Or.inr ⟨rfl, rfl⟩
  | _ :: _, 0, _ + 1, _ => Or.inl rfl
  | _ :: _, _ + 1, 0, _ => Or.inl rfl
  | _ :: gs, i + 1, j + 1, f =>
    match getD_modifyGroup gs i j f with
    | Or.inl h => Or.inl h
    | Or.inr ⟨hij, h⟩ => Or.inr ⟨by rw [hij], h⟩

lemma capBound_modifyGroup (caps : List Nat) (gs : List (List Particle))
    (i : Nat) (f : List Particle → List Particle)
    (hf : (f (gs.getD i [])).length ≤ caps.getD i 0)
    (h : CapBound caps gs) : CapBound caps (modifyGroup gs i f) := by
  intro j
  rcases getD_modifyGroup gs i j f with heq | ⟨hij, heq⟩
  · rw [heq]
    exact h j
  · subst hij
    rw [heq]
    exact hf

lemma capBound_insertClones (caps : List Nat) :
    ∀ (reqs : List (Nat × Particle)) (gs : List (List Particle)),
      CapBound caps gs → CapBound caps (insertClones caps gs reqs)
  | [], _, h => h
  | (tgt, p) :: rest, gs, h =>
    capBound_insertClones caps rest _
      (capBound_modifyGroup caps gs tgt _
        (cloneInsert_le _ _ p (h tgt)) h)

lemma survivors_getD_le (m : Module) (dt : ℚ) :
    ∀ (gs : List (List Particle)) (mls : List (List UpdateModifier)) (j : Nat),
      (((updateGroups m dt gs mls).map fun r => expiryFilter r.1).getD j []).length ≤
        (gs.getD j []).length
  | [], mls, j => by
    cases mls <;> simp [updateGroups]
  | g :: gs, [], 0 => by
    have h1 : (expiryFilter (updateGroup m [] dt g).1).length ≤
        ((updateGroup m [] dt g).1).length := List.length_filter_le _ _
    have h2 : ((updateGroup m [] dt g).1).length = g.length := by
      simp [updateGroup]
    exact h1.trans (le_of_eq h2)
  | g :: gs, [], j + 1 => survivors_getD_le m dt gs [] j
  | g :: gs, ml :: mls, 0 => by
    have h1 : (expiryFilter (updateGroup m ml dt g).1).length ≤
        ((updateGroup m ml dt g).1).length := List.length_filter_le _ _
    have h2 : ((updateGroup m ml dt g).1).length = g.length := by
      simp [updateGroup]
    exact h1.trans (le_of_eq h2)
  | g :: gs, ml :: mls, j + 1 => survivors_getD_le m dt gs mls j

lemma getD_nilMap : ∀ (caps : List Nat) (j : Nat),
    ((caps.map fun _ => ([] : List Particle)).getD j []) = []
  | [], _ => rfl
  | _ :: _, 0 => rfl
  | _ :: caps, j + 1 => getD_nilMap caps j

lemma capBound_tick (d : EffectDesc) (dt : ℚ) (st : EffectState)
    (h : CapBound d.capacities st.groups) :
    CapBound d.capacities (tick d dt st).groups := by
  have hgs1 : CapBound d.capacities
      (modifyGroup st.groups 0 fun g =>
        spawnInto (d.capacities.getD 0 0) (spawnParticle d.module d.initMods) g
          (⌊st.acc + d.rate * dt⌋).toNat) :=
    capBound_modifyGroup _ _ _ _ (spawnInto_le _ _ _ _ (h 0)) h
  have hsurv : CapBound d.capacities
      ((updateGroups d.module dt
          (modifyGroup st.groups 0 fun g =>
            spawnInto (d.capacities.getD 0 0) (spawnParticle d.module d.initMods) g
              (⌊st.acc + d.rate * dt⌋).toNat)
          d.updateMods).map fun r => expiryFilter r.1) :=
    fun j => le_trans (survivors_getD_le d.module dt _ d.updateMods j) (hgs1 j)
  exact capBound_insertClones d.capacities _ _ hsurv

/-- Claim C2: for every group of an effect and every reachable simulation
state, the group's live particle count never exceeds its fixed capacity; and
a capacity-limited spawn or clone insertion attempt made while the live count
equals the capacity leaves the group literally unchanged — the excess
particle is dropped, not queued and not evicting existing particles. -/
theorem group_capacity_hard_ceiling (d : EffectDesc) (st : EffectState)
    (h : Reachable d st) :
    (∀ i : Nat, (st.groups.getD i []).length ≤ d.capacities.getD i 0) ∧
    (∀ (cap : Nat) (g : List Particle) (p : Particle),
      g.length = cap → cloneInsert cap g p = g) := by
  constructor
  · induction h with
    | init =>
      intro j
      show (((d.capacities.map fun _ => []).getD j []).length ≤ _)
      rw [getD_nilMap]
      exact Nat.zero_le _
    | step _ _ ih => exact capBound_tick _ _ _ ih
  · intro cap g p hg
    simp [cloneInsert, hg]

theorem group_capacity_hard_ceiling_witness :
    Reachable boxDesc (tick boxDesc (1/60) (initState boxDesc)) ∧
    ((tick boxDesc (1/60) (initState boxDesc)).groups.getD 0 []).length ≤
      boxDesc.capacities.getD 0 0 :=
  ⟨Reachable.step Reachable.init (by norm_num),
   (group_capacity_hard_ceiling boxDesc _
     (Reachable.step Reachable.init (by norm_num))).1 0⟩

lemma box_g0_requests (dt : ℚ) (p : Particle) :
    (updateParticle boxDesc.module (boxDesc.updateMods.getD 0 []) dt p).2 =
      if crossesB p.age (p.age + dt) p.lifetime (4/5) = true
      then [(1, aged dt p)] else [] := by
  show (updateParticle boxModule [.clone (4/5) 1, .accel 8] dt p).2 = _
  simp [updateParticle, runMods, applyMod, aged]

lemma box_g1_update (dt2 : ℚ) (q : Particle) :
    (updateParticle boxDesc.module (boxDesc.updateMods.getD 1 []) dt2 q).1 =
      { q with age := q.age + dt2, velocity := ⟨0, 0, 0⟩, lifetime := 1/5 } := by
  show (updateParticle boxModule
    [.setAttribute .VELOCITY 6, .setAttribute .LIFETIME 7] dt2 q).1 = _
  rfl

/-- Claim C10: in the configured example effect, every particle cloned from
group 0 into group 1 carries an AGE of at least 0.64 (the 0.8 clone fraction
of the 0.8 lifetime) — the clone copies the source's attribute state without
re-running init; group 1's update modifiers do not touch AGE and set LIFETIME
to 0.2; hence after the clone's first update tick its age is at least its
lifetime and the expiry check removes it. -/
theorem box_clone_inherits_age_and_expires (dt dt2 : ℚ) (p q : Particle)
    (tgt : Nat) (hl : p.lifetime = 4/5) (hdt2 : 0 ≤ dt2)
    (hq : (tgt, q) ∈
      (updateParticle boxDesc.module (boxDesc.updateMods.getD 0 []) dt p).2) :
    tgt = 1 ∧ (16/25 : ℚ) ≤ q.age ∧ q.lifetime = 4/5 ∧
    (updateParticle boxDesc.module (boxDesc.updateMods.getD 1 []) dt2 q).1.lifetime
        = 1/5 ∧
    (updateParticle boxDesc.module (boxDesc.updateMods.getD 1 []) dt2 q).1.lifetime ≤
      (updateParticle boxDesc.module (boxDesc.updateMods.getD 1 []) dt2 q).1.age ∧
    expiryFilter
      [(updateParticle boxDesc.module (boxDesc.updateMods.getD 1 []) dt2 q).1] = [] := by
  rw [box_g0_requests] at hq
  cases hc : crossesB p.age (p.age + dt) p.lifetime (4/5) with
  | false =>
    rw [hc] at hq
    simp at hq
  | true =>
    rw [hc, if_pos rfl] at hq
    simp only [List.mem_singleton, Prod.mk.injEq] at hq
    obtain ⟨htgt, hqe⟩ := hq
    subst hqe
    simp only [crossesB, Bool.and_eq_true, decide_eq_true_eq] at hc
    obtain ⟨hlt, hge⟩ := hc
    rw [hl] at hge
    have hage : (16/25 : ℚ) ≤ (aged dt p).age := by
      show (16/25 : ℚ) ≤ p.age + dt
      linarith
    have hlife : (aged dt p).lifetime = 4/5 := hl
    rw [box_g1_update]
    refine ⟨htgt, hage, hlife, rfl, ?_, ?_⟩
    · show (1/5 : ℚ) ≤ (aged dt p).age + dt2
      linarith
    · rw [expiryFilter, List.filter_eq_nil_iff]
      intro a ha
      simp only [List.mem_singleton] at ha
      subst ha
      simp only [decide_eq_true_eq]
      show ¬ ((aged dt p).age + dt2 < (1/5 : ℚ))
      linarith

theorem box_clone_inherits_age_and_expires_witness :
    sampleSource.lifetime = 4/5 ∧ (0 : ℚ) ≤ 1/100 ∧
    ((1 : Nat), aged (1/10) sampleSource) ∈
      (updateParticle boxDesc.module (boxDesc.updateMods.getD 0 [])
        (1/10) sampleSource).2 ∧
    (16/25 : ℚ) ≤ (aged (1/10) sampleSource).age := by
  have hcr : crossesB sampleSource.age (sampleSource.age + 1/10)
      sampleSource.lifetime (4/5) = true := by
    norm_num [crossesB, sampleSource, Particle.default]
  have hmem : ((1 : Nat), aged (1/10) sampleSource) ∈
      (updateParticle boxDesc.module (boxDesc.updateMods.getD 0 [])
        (1/10) sampleSource).2 := by
    rw [box_g0_requests, if_pos hcr]
    exact List.mem_singleton.mpr rfl
  exact ⟨rfl, by norm_num, hmem,
    (box_clone_inherits_age_and_expires (1/10) (1/100) sampleSource _ 1 rfl
      (by norm_num) hmem).2.1⟩

end Hanabi
